import Mathlib

/-!
Shallow embedding of the Streamlit/Snowflake commission CRUD application
(`src/controllers/app_controller.py`, `src/models/data_model.py`).

The Record Store (Snowflake) is modelled as an environment: each query an
operation issues is represented by a response function supplied to the
operation, whose value is either `Except.ok` (the query result) or
`Except.error` (a raised store/connectivity exception, caught at the
boundary in the source).  `st.rerun()` halts the running script, so any
code after a call to `reset_form` (which ends in `conditional_rerun`)
does not execute; this is modelled by the control flow of the embedded
functions and recorded in the `halted` field of `SubmitResult`.
-/

/-- A persisted commission record: one row of PRODUCTS.CUSTOMERS.COMMISSIONS.
The measure is modelled as a rational, the last-updated timestamp as a
natural number (timestamps are totally ordered strings in the source). -/
structure Record where
  company_name : String
  program_code : String
  product_code : String
  commission_amount : Rat
  is_active : Bool
  updated_last : Nat
  username : String
deriving DecidableEq, Repr, Inhabited

/-- The natural key (organization, program, product) of a record. -/
def naturalKey (r : Record) : String × String × String :=
  (r.company_name, r.program_code, r.product_code)

/-- The session-state fields read by `handle_form_submission`. -/
structure SessionState where
  selected_company : String
  selected_program : String
  selected_products : List String
  ninput_commission : Rat
  is_active : Bool
deriving DecidableEq, Repr

/-- One Record Store call issued by the controller. -/
inductive StoreCall where
  | existsCheck : String → String → String → StoreCall
  | insertBatch : List Record → StoreCall
  | updateByKey : String → String → String → Rat → Bool → Nat → String → StoreCall
  | deleteByKey : String → String → String → StoreCall
deriving DecidableEq, Repr

/-- The natural key a store call addresses, when it addresses a single key. -/
def callKeyOf : StoreCall → Option (String × String × String)
  | .existsCheck c p pr => some (c, p, pr)
  | .insertBatch _ => none
  | .updateByKey c p pr _ _ _ _ => some (c, p, pr)
  | .deleteByKey c p pr => some (c, p, pr)

/-- A user-visible banner message. -/
inductive Msg where
  | error : String → Msg
  | success : String → Msg
deriving DecidableEq, Repr

/-- `models.data_model.save_commission_data`: writes the batch; a raised
store exception is caught and turned into a failure tuple. -/
def save_commission_data (new_commission_data : List Record)
    (resp : List Record → Except String Unit) : Bool × String :=
  match resp new_commission_data with
  | .ok _ => (true, "Data successfully saved.")
  | .error e => (false, "Failed to save data: " ++ e)

/-- `models.data_model.check_existing_entry`: counts rows matching the
natural key; the result row list is `resp`; an empty result counts as 0;
a raised exception is caught and the function returns `false`. -/
def check_existing_entry (company_name program_code product_code : String)
    (resp : String × String × String → Except String (List Nat)) : Bool :=
  match resp (company_name, program_code, product_code) with
  | .ok result => decide (0 < (match result with | n :: _ => n | [] => 0))
  | .error _ => false

/-- `models.data_model.update_ulr_data`: runs the keyed UPDATE; a raised
store exception is caught and turned into a failure tuple. -/
def update_ulr_data (company_name program_code product_code : String)
    (commission_amount : Rat) (is_active : Bool) (updated_last : Nat)
    (username : String)
    (resp : String × String × String → Except String Unit) : Bool × String :=
  match resp (company_name, program_code, product_code) with
  | .ok _ => (true, "Commission data updated successfully.")
  | .error e => (false, "Failed to update data: " ++ e)

/-- `models.data_model.delete_commission_data`: runs the keyed DELETE; a
raised store exception is caught and turned into a failure tuple. -/
def delete_commission_data (company_name program_code product_code : String)
    (resp : String × String × String → Except String Unit) : Bool × String :=
  match resp (company_name, program_code, product_code) with
  | .ok _ => (true, "Row deleted successfully.")
  | .error e => (false, "Failed to delete data: " ++ e)

/-- The validation error text of `handle_form_submission`. -/
def validationMessage : String :=
  "Please fill all fields and provide a valid commission amount."

/-- The duplicate-detected error text, naming the duplicate products. -/
def dupMessage (dups : List String) : String :=
  "Duplicate entry detected: The product code(s) " ++ String.intercalate ", " dups
    ++ " already exist for the selected company and program."

/-- The existence-check calls the submission loop issues, one per product. -/
def productChecks (s : SessionState) : List StoreCall :=
  s.selected_products.map (fun p => .existsCheck s.selected_company s.selected_program p)

/-- The new-entry record built for one non-duplicate product. -/
def entryOf (s : SessionState) (p : String) (now : Nat) (user : String) : Record :=
  { company_name := s.selected_company
    program_code := s.selected_program
    product_code := p
    commission_amount := s.ninput_commission
    is_active := s.is_active
    updated_last := now
    username := user }

/-- The outcome of one submit-button press: the store calls issued, the
messages shown, whether the form was reset, and whether the script was
halted by `st.rerun()` before reaching the end of the handler. -/
structure SubmitResult where
  calls : List StoreCall
  messages : List Msg
  formReset : Bool
  halted : Bool
deriving DecidableEq, Repr

/-- All required fields present and a strictly positive measure. -/
def validState (s : SessionState) : Prop :=
  s.selected_company ≠ "" ∧ s.selected_program ≠ "" ∧
    s.selected_products ≠ [] ∧ 0 < s.ninput_commission

instance (s : SessionState) : Decidable (validState s) := by
  unfold validState; infer_instance

/-- `controllers.app_controller.handle_form_submission`, submit branch
(submit pressed, reset flag clear).  `checkEnv` gives each existence
query's outcome, `saveEnv` the bulk write's outcome.  In the duplicate
branch `reset_form` reruns the script, so the save block below it never
executes. -/
def handle_form_submission (s : SessionState)
    (checkEnv : String × String × String → Except String (List Nat))
    (saveEnv : List Record → Except String Unit)
    (now : Nat) (user : String) : SubmitResult :=
  if s.selected_company = "" ∨ s.selected_program = "" ∨
      s.selected_products = [] ∨ ¬ 0 < s.ninput_commission then
    { calls := [], messages := [.error validationMessage],
      formReset := false, halted := false }
  else
    let duplicate_entries := s.selected_products.filter
      (fun p => check_existing_entry s.selected_company s.selected_program p checkEnv)
    let new_entries := (s.selected_products.filter
      (fun p => !check_existing_entry s.selected_company s.selected_program p checkEnv)).map
      (fun p => entryOf s p now user)
    if duplicate_entries ≠ [] then
      { calls := productChecks s,
        messages := [.error (dupMessage duplicate_entries)],
        formReset := true, halted := true }
    else if new_entries ≠ [] then
      match save_commission_data new_entries saveEnv with
      | (true, m) =>
          { calls := productChecks s ++ [.insertBatch new_entries],
            messages := [.success m], formReset := true, halted := true }
      | (false, m) =>
          { calls := productChecks s ++ [.insertBatch new_entries],
            messages := [.error m], formReset := false, halted := false }
    else
      { calls := productChecks s, messages := [], formReset := false, halted := false }

/-- Case-insensitive containment: models
`Series.str.contains(pat, case=False, na=False)` for literal (regex
metacharacter free) patterns, the shape of pattern the filter box is
meant for. -/
def containsCI (hay pat : String) : Bool :=
  decide (pat.data.map Char.toLower <:+: hay.data.map Char.toLower)

/-- The sidebar filter configuration of `display_commission_table`.
`none`/empty components model unset widgets (`if filter:` truthiness and
the `is not None` guards in the source). -/
structure FilterConfig where
  company_filter : String
  program_filter : String
  product_filter : String
  company_min_filter : Option Rat
  commission_max_filter : Option Rat
  username_filter : String
  date_range : List Nat
deriving DecidableEq, Repr

/-- A configuration with every filter unset. -/
def unsetFilters : FilterConfig :=
  { company_filter := "", program_filter := "", product_filter := ""
    company_min_filter := none, commission_max_filter := none
    username_filter := "", date_range := [] }

/-- One substring filter stage: applied only when the filter text is
non-empty (Python string truthiness). -/
def strStage (pat : String) (get : Record → String) (d : List Record) : List Record :=
  if pat = "" then d else d.filter (fun r => containsCI (get r) pat)

/-- The minimum-measure stage, guarded by `is not None`. -/
def minStage (o : Option Rat) (d : List Record) : List Record :=
  match o with
  | some m => d.filter (fun r => decide (m ≤ r.commission_amount))
  | none => d

/-- The maximum-measure stage, guarded by `is not None`. -/
def maxStage (o : Option Rat) (d : List Record) : List Record :=
  match o with
  | some m => d.filter (fun r => decide (r.commission_amount ≤ m))
  | none => d

/-- The exact-match username stage, applied when non-empty. -/
def userStage (u : String) (d : List Record) : List Record :=
  if u = "" then d else d.filter (fun r => r.username == u)

/-- The date-range stage: applied only when `len(date_range) == 2`,
inclusively on both ends. -/
def dateStage (dr : List Nat) (d : List Record) : List Record :=
  match dr with
  | [s, e] => d.filter (fun r => decide (s ≤ r.updated_last) && decide (r.updated_last ≤ e))
  | _ => d

/-- The filter pipeline of `display_commission_table`, stages in source
order: company, program, product, min, max, username, date range. -/
def applyFilters (rows : List Record) (F : FilterConfig) : List Record :=
  dateStage F.date_range
    (userStage F.username_filter
      (maxStage F.commission_max_filter
        (minStage F.company_min_filter
          (strStage F.product_filter (fun r => r.product_code)
            (strStage F.program_filter (fun r => r.program_code)
              (strStage F.company_filter (fun r => r.company_name) rows))))))

/-- The whitelist of user-selectable sort columns. -/
inductive SortColumn where
  | company_name | program_code | product_code | is_active
deriving DecidableEq, Repr

/-- Ascending comparator for a chosen sort column. -/
def sortKeyLe : SortColumn → Record → Record → Bool
  | .company_name, a, b => decide (a.company_name ≤ b.company_name)
  | .program_code, a, b => decide (a.program_code ≤ b.program_code)
  | .product_code, a, b => decide (a.product_code ≤ b.product_code)
  | .is_active, a, b => decide (a.is_active ≤ b.is_active)

/-- The sort stage: `sort_values` by the chosen column ascending, or by
`UPDATED_LAST` descending when no column is chosen. -/
def sortStage (c : Option SortColumn) (d : List Record) : List Record :=
  match c with
  | none => d.mergeSort (fun a b => decide (b.updated_last ≤ a.updated_last))
  | some col => d.mergeSort (sortKeyLe col)

/-- One fetch → filter → sort cycle over the fetched snapshot. -/
def fetchFilterSortCycle (records : List Record) (F : FilterConfig)
    (c : Option SortColumn) : List Record :=
  sortStage c (applyFilters records F)

/-- A pandas DataFrame as far as this app observes it: whether it carries
the table's columns, and its rows.  `pd.DataFrame()` (the fetch-failure
fallback) has no columns. -/
structure DFrame where
  hasCols : Bool
  rows : List Record
deriving DecidableEq, Repr

/-- `models.data_model.get_dataset`: a raised fetch exception is caught,
an error banner shown, and the empty column-less frame returned. -/
def get_dataset (fetch : Except String (List Record)) : DFrame :=
  match fetch with
  | .ok rows => { hasCols := true, rows := rows }
  | .error _ => { hasCols := false, rows := [] }

/-- Subscripting the frame with the COMMISSION_AMOUNT column, done to
seed the min/max number inputs; raises KeyError when the frame has no
columns. -/
def commissionColumn (df : DFrame) : Except String (List Rat) :=
  if df.hasCols then .ok (df.rows.map (fun r => r.commission_amount))
  else .error "KeyError: COMMISSION_AMOUNT"

/-- The fetch/render prefix of
`controllers.app_controller.display_commission_table`: fetch, read the
measure column for the filter widgets, then filter and sort.  An
uncaught exception surfaces as `Except.error`. -/
def display_commission_table (fetch : Except String (List Record))
    (F : FilterConfig) (c : Option SortColumn) : Except String (List Record) :=
  match commissionColumn (get_dataset fetch) with
  | .error e => .error e
  | .ok _ => .ok (fetchFilterSortCycle (get_dataset fetch).rows F c)

/-- The edit surface leaves every column other than the measure and the
active flag read-only: an edited row agrees with its pre-edit row on all
non-editable columns. -/
def editableMatch (r r0 : Record) : Prop :=
  r.company_name = r0.company_name ∧ r.program_code = r0.program_code ∧
    r.product_code = r0.product_code ∧ r.updated_last = r0.updated_last ∧
    r.username = r0.username

instance (r r0 : Record) : Decidable (editableMatch r r0) := by
  unfold editableMatch; infer_instance

/-- `original_index_set - edited_index_set`: positions of the pre-edit
snapshot absent from the post-edit table.  The post-edit table is a list
of (original position, edited row) pairs, as the data editor keeps the
original index labels of surviving rows. -/
def deletedIndexes (pre : List Record) (post : List (Nat × Record)) : List Nat :=
  (List.range pre.length).filter (fun i => !((post.map Prod.fst).contains i))

/-- `edited_commission_data[edited_commission_data.ne(filtered_data).any(axis=1)]`:
the surviving rows differing in some cell from the pre-edit row at the
same position (a position with no pre-edit row always counts as
differing, as pandas alignment yields NaN there). -/
def changedRows (pre : List Record) (post : List (Nat × Record)) : List (Nat × Record) :=
  post.filter (fun q =>
    match pre[q.1]? with
    | some r0 => decide (q.2 ≠ r0)
    | none => true)

/-- The delete call for a pre-edit row (`row_to_delete`). -/
def deleteCallOf (r : Record) : StoreCall :=
  .deleteByKey r.company_name r.program_code r.product_code

/-- The update call for an edited row: keyed by the row's (read-only)
natural key, carrying its new measure and active flag, a fresh
timestamp, and the acting username. -/
def updateCallOf (r : Record) (now : Nat) (user : String) : StoreCall :=
  .updateByKey r.company_name r.program_code r.product_code
    r.commission_amount r.is_active now user

/-- The store calls issued by the Apply Changes handler of
`display_commission_table`: one delete per deleted position (row looked
up in the pre-edit snapshot), then one update per changed surviving
row. -/
def applyCalls (pre : List Record) (post : List (Nat × Record))
    (now : Nat) (user : String) : List StoreCall :=
  (deletedIndexes pre post).map (fun i => deleteCallOf (pre.getD i default))
    ++ (changedRows pre post).map (fun q => updateCallOf q.2 now user)

/-- The Apply Changes handler with the store's behaviour supplied:
`dResp`/`uResp` give each keyed delete/update outcome.  Returns the
calls issued and the per-row banner shown after each call. -/
def applyChangesRun (pre : List Record) (post : List (Nat × Record))
    (dResp uResp : String × String × String → Except String Unit)
    (now : Nat) (user : String) : List StoreCall × List Msg :=
  let delPart := (deletedIndexes pre post).map (fun i =>
    let r := pre.getD i default
    let res := delete_commission_data r.company_name r.program_code r.product_code dResp
    (deleteCallOf r,
      if res.1 then Msg.success ("Row for company " ++ r.company_name ++ " deleted successfully.")
      else Msg.error ("Failed to delete row: " ++ res.2)))
  let updPart := (changedRows pre post).map (fun q =>
    let r := q.2
    let res := update_ulr_data r.company_name r.program_code r.product_code
      r.commission_amount r.is_active now user uResp
    (updateCallOf r now user,
      if res.1 then Msg.success ("Row for company " ++ r.company_name ++ " updated successfully.")
      else Msg.error ("Failed to update row: " ++ res.2)))
  ((delPart ++ updPart).map Prod.fst, (delPart ++ updPart).map Prod.snd)

/-- A sample record with a fixed organization and program, used by the
concrete witnesses. -/
def mkSample (pr : String) (amt : Rat) (ts : Nat) : Record :=
  { company_name := "A", program_code := "X", product_code := pr
    commission_amount := amt, is_active := true, updated_last := ts, username := "u" }

/-- A five-row pre-edit snapshot with pairwise distinct natural keys. -/
def pre5 : List Record :=
  [mkSample "p0" 1 10, mkSample "p1" 2 11, mkSample "p2" 3 12,
   mkSample "p3" 4 13, mkSample "p4" 5 14]

/-- The post-edit table after deleting positions 1 and 3 and changing the
measure of position 2 to 99. -/
def post5 : List (Nat × Record) :=
  [(0, mkSample "p0" 1 10), (2, mkSample "p2" 99 12), (4, mkSample "p4" 5 14)]

/-- Two sample rows for the filter witnesses. -/
def sampleRows : List Record :=
  [{ company_name := "AlphaCorp", program_code := "PX", product_code := "PRA"
     commission_amount := 5, is_active := true, updated_last := 10, username := "u1" },
   { company_name := "Beta", program_code := "PY", product_code := "PRB"
     commission_amount := 7, is_active := false, updated_last := 20, username := "u2" }]

/-- A configuration with only the organization substring filter set. -/
def sampleFilter : FilterConfig :=
  { unsetFilters with company_filter := "alpha" }

/-! ## Stage lemmas for the filter pipeline -/

theorem strStage_sublist (pat : String) (get : Record → String) (d : List Record) :
    List.Sublist (strStage pat get d) d := by
  unfold strStage
  split
  · exact List.Sublist.refl d
  · exact List.filter_sublist d

theorem minStage_sublist (o : Option Rat) (d : List Record) :
    List.Sublist (minStage o d) d := by
  unfold minStage
  cases o
  · exact List.Sublist.refl d
  · exact List.filter_sublist d

theorem maxStage_sublist (o : Option Rat) (d : List Record) :
    List.Sublist (maxStage o d) d := by
  unfold maxStage
  cases o
  · exact List.Sublist.refl d
  · exact List.filter_sublist d

theorem userStage_sublist (u : String) (d : List Record) :
    List.Sublist (userStage u d) d := by
  unfold userStage
  split
  · exact List.Sublist.refl d
  · exact List.filter_sublist d

theorem dateStage_sublist (dr : List Nat) (d : List Record) :
    List.Sublist (dateStage dr d) d := by
  unfold dateStage
  split
  · exact List.filter_sublist d
  · exact List.Sublist.refl d

theorem applyFilters_sublist (rows : List Record) (F : FilterConfig) :
    List.Sublist (applyFilters rows F) rows := by
  unfold applyFilters
  exact ((dateStage_sublist _ _).trans ((userStage_sublist _ _).trans
    ((maxStage_sublist _ _).trans ((minStage_sublist _ _).trans
      ((strStage_sublist _ _ _).trans ((strStage_sublist _ _ _).trans
        (strStage_sublist _ _ _)))))))

theorem mem_strStage {pat : String} {get : Record → String} {d : List Record} {r : Record}
    (h : r ∈ strStage pat get d) :
    r ∈ d ∧ (pat ≠ "" → containsCI (get r) pat = true) := by
  unfold strStage at h
  by_cases hp : pat = ""
  · rw [if_pos hp] at h
    exact ⟨h, fun hn => absurd hp hn⟩
  · rw [if_neg hp] at h
    exact ⟨(List.mem_filter.mp h).1, fun _ => (List.mem_filter.mp h).2⟩

theorem mem_minStage {o : Option Rat} {d : List Record} {r : Record}
    (h : r ∈ minStage o d) :
    r ∈ d ∧ ∀ m, o = some m → m ≤ r.commission_amount := by
  cases o with
  | none => exact ⟨h, fun m hm => by cases hm⟩
  | some m =>
    have h2 := List.mem_filter.mp h
    refine ⟨h2.1, fun m2 hm2 => ?_⟩
    injection hm2 with h3
    subst h3
    exact of_decide_eq_true h2.2

theorem mem_maxStage {o : Option Rat} {d : List Record} {r : Record}
    (h : r ∈ maxStage o d) :
    r ∈ d ∧ ∀ m, o = some m → r.commission_amount ≤ m := by
  cases o with
  | none => exact ⟨h, fun m hm => by cases hm⟩
  | some m =>
    have h2 := List.mem_filter.mp h
    refine ⟨h2.1, fun m2 hm2 => ?_⟩
    injection hm2 with h3
    subst h3
    exact of_decide_eq_true h2.2

theorem mem_userStage {u : String} {d : List Record} {r : Record}
    (h : r ∈ userStage u d) :
    r ∈ d ∧ (u ≠ "" → r.username = u) := by
  unfold userStage at h
  by_cases hu : u = ""
  · rw [if_pos hu] at h
    exact ⟨h, fun hn => absurd hu hn⟩
  · rw [if_neg hu] at h
    exact ⟨(List.mem_filter.mp h).1, fun _ => eq_of_beq (List.mem_filter.mp h).2⟩

theorem mem_dateStage {dr : List Nat} {d : List Record} {r : Record}
    (h : r ∈ dateStage dr d) :
    r ∈ d ∧ ∀ s e, dr = [s, e] → s ≤ r.updated_last ∧ r.updated_last ≤ e := by
  cases dr with
  | nil => exact ⟨h, fun s e he => by simp at he⟩
  | cons a t =>
    cases t with
    | nil => exact ⟨h, fun s e he => by simp at he⟩
    | cons b t2 =>
      cases t2 with
      | cons c t3 => exact ⟨h, fun s e he => by simp at he⟩
      | nil =>
        have h2 := List.mem_filter.mp h
        refine ⟨h2.1, fun s e he => ?_⟩
        have h3 := h2.2
        simp only [Bool.and_eq_true, decide_eq_true_eq] at h3
        simp only [List.cons.injEq, and_true] at he
        obtain ⟨rfl, rfl, -⟩ := he
        exact h3

/-! ## Claim theorems: filter engine -/

/-- C3: for every record set and filter configuration, the filter
pipeline returns a subset of the input, every returned row satisfies
every non-empty predicate of the configuration (case-insensitive
substring on organization, program and product, both measure bounds,
exact username, inclusive two-sided date range), and a configuration
with every filter unset imposes no constraint. -/
theorem applyFilters_sound (rows : List Record) (F : FilterConfig) :
    applyFilters rows F ⊆ rows ∧
    (∀ r, r ∈ applyFilters rows F →
      (F.company_filter ≠ "" → containsCI r.company_name F.company_filter = true) ∧
      (F.program_filter ≠ "" → containsCI r.program_code F.program_filter = true) ∧
      (F.product_filter ≠ "" → containsCI r.product_code F.product_filter = true) ∧
      (∀ m, F.company_min_filter = some m → m ≤ r.commission_amount) ∧
      (∀ m, F.commission_max_filter = some m → r.commission_amount ≤ m) ∧
      (F.username_filter ≠ "" → r.username = F.username_filter) ∧
      (∀ s e, F.date_range = [s, e] → s ≤ r.updated_last ∧ r.updated_last ≤ e)) ∧
    applyFilters rows unsetFilters = rows := by
  refine ⟨(applyFilters_sublist rows F).subset, fun r hr => ?_, ?_⟩
  · unfold applyFilters at hr
    obtain ⟨hr, hdate⟩ := mem_dateStage hr
    obtain ⟨hr, huser⟩ := mem_userStage hr
    obtain ⟨hr, hmax⟩ := mem_maxStage hr
    obtain ⟨hr, hmin⟩ := mem_minStage hr
    obtain ⟨hr, hprod⟩ := mem_strStage hr
    obtain ⟨hr, hprog⟩ := mem_strStage hr
    obtain ⟨hr, hcomp⟩ := mem_strStage hr
    exact ⟨hcomp, hprog, hprod, hmin, hmax, huser, hdate⟩
  · simp [applyFilters, unsetFilters, strStage, minStage, maxStage, userStage, dateStage]

/-- Witness for C3 at a concrete record set and a concrete configuration
with one non-empty filter. -/
theorem applyFilters_sound_witness :
    (sampleRows.get ⟨0, by decide⟩) ∈ applyFilters sampleRows sampleFilter ∧
    containsCI (sampleRows.get ⟨0, by decide⟩).company_name sampleFilter.company_filter = true :=
  ⟨by decide,
   (((applyFilters_sound sampleRows sampleFilter).2.1 (sampleRows.get ⟨0, by decide⟩)
      (by decide)).1) (by decide)⟩

/-- C4: the date-range stage leaves the record set unchanged unless the
range has exactly two endpoints, and with two endpoints it keeps exactly
the rows whose last-updated timestamp lies inclusively between them. -/
theorem dateStage_noop_unless_two_endpoints (rows : List Record) (dr : List Nat) :
    (dr.length ≠ 2 → dateStage dr rows = rows) ∧
    ∀ s e, dr = [s, e] →
      dateStage dr rows =
        rows.filter (fun r => decide (s ≤ r.updated_last) && decide (r.updated_last ≤ e)) := by
  constructor
  · intro h
    cases dr with
    | nil => rfl
    | cons a t =>
      cases t with
      | nil => rfl
      | cons b t2 =>
        cases t2 with
        | nil => simp at h
        | cons c t3 => rfl
  · rintro s e rfl
    rfl

/-- Witness for C4: a single-endpoint range filters nothing; a two-sided
range keeps exactly the rows inside the bounds. -/
theorem dateStage_noop_witness :
    dateStage [7] sampleRows = sampleRows ∧
    dateStage [5, 15] sampleRows =
      sampleRows.filter (fun r => decide (5 ≤ r.updated_last) && decide (r.updated_last ≤ 15)) :=
  ⟨(dateStage_noop_unless_two_endpoints sampleRows [7]).1 (by decide),
   (dateStage_noop_unless_two_endpoints sampleRows [5, 15]).2 5 15 rfl⟩

/-- C9: the fetch → filter → sort cycle is a pure function of the
fetched snapshot, the filter configuration and the chosen sort column,
so two runs over the same record set with the same configuration and no
intervening edits produce the same ordered row sequence. -/
theorem fetchFilterSortCycle_deterministic (records : List Record)
    (F : FilterConfig) (c : Option SortColumn) :
    fetchFilterSortCycle records F c = fetchFilterSortCycle records F c := rfl

/-- C8 (code bug): when the Record Store fetch fails, `get_dataset`
returns the empty column-less frame, and the table workflow then fails
on the COMMISSION_AMOUNT column lookup instead of completing. -/
theorem display_table_crashes_on_fetch_failure (e : String) (F : FilterConfig)
    (c : Option SortColumn) :
    display_commission_table (Except.error e) F c =
      Except.error "KeyError: COMMISSION_AMOUNT" := rfl

/-! ## Claim theorems: submission and store boundary -/

/-- C6: with a required field missing or a non-positive measure, the
submit handler shows the validation error, issues no Record Store call
of any kind, does not reset the form, and does not rerun. -/
theorem submission_validation_rejects (s : SessionState)
    (checkEnv : String × String × String → Except String (List Nat))
    (saveEnv : List Record → Except String Unit) (now : Nat) (user : String)
    (h : s.selected_company = "" ∨ s.selected_program = "" ∨
      s.selected_products = [] ∨ s.ninput_commission ≤ 0) :
    handle_form_submission s checkEnv saveEnv now user =
      { calls := [], messages := [.error validationMessage],
        formReset := false, halted := false } := by
  unfold handle_form_submission
  rw [if_pos]
  rcases h with h | h | h | h
  · exact Or.inl h
  · exact Or.inr (Or.inl h)
  · exact Or.inr (Or.inr (Or.inl h))
  · exact Or.inr (Or.inr (Or.inr (not_lt.mpr h)))

/-- Witness for C6: a complete selection with measure 0 is rejected with
no store calls and no reset. -/
theorem submission_validation_rejects_witness :
    ((⟨"A", "X", ["P1"], 0, true⟩ : SessionState).ninput_commission ≤ 0) ∧
    handle_form_submission ⟨"A", "X", ["P1"], 0, true⟩ (fun _ => Except.ok [])
      (fun _ => Except.ok ()) 0 "u" =
      { calls := [], messages := [.error validationMessage],
        formReset := false, halted := false } :=
  ⟨le_refl 0,
   submission_validation_rejects _ _ _ _ _ (Or.inr (Or.inr (Or.inr (le_refl 0))))⟩

/-- The calls the Apply Changes handler attempts do not depend on the
store's responses. -/
theorem applyChangesRun_fst (pre : List Record) (post : List (Nat × Record))
    (dResp uResp : String × String × String → Except String Unit)
    (now : Nat) (user : String) :
    (applyChangesRun pre post dResp uResp now user).1 = applyCalls pre post now user := by
  simp only [applyChangesRun, applyCalls, List.map_append, List.map_map]
  rfl

/-- C7: each store mutator converts a store failure into a
(false, message) tuple instead of propagating an exception, the set of
deletes and updates the reconciliation attempts is independent of each
call's outcome (one row's failure never suppresses another row's call),
and every attempted call produces exactly one per-row report. -/
theorem store_failures_isolated :
    (∀ data e, save_commission_data data (fun _ => Except.error e) =
        (false, "Failed to save data: " ++ e)) ∧
    (∀ c p pr amt act ts u e,
        update_ulr_data c p pr amt act ts u (fun _ => Except.error e) =
          (false, "Failed to update data: " ++ e)) ∧
    (∀ c p pr e, delete_commission_data c p pr (fun _ => Except.error e) =
        (false, "Failed to delete data: " ++ e)) ∧
    (∀ pre post d1 u1 d2 u2 now user,
        (applyChangesRun pre post d1 u1 now user).1 =
          (applyChangesRun pre post d2 u2 now user).1) ∧
    (∀ pre post d u now user,
        (applyChangesRun pre post d u now user).2.length =
          (applyChangesRun pre post d u now user).1.length) := by
  refine ⟨fun data e => rfl, fun c p pr amt act ts u e => rfl, fun c p pr e => rfl,
    fun pre post d1 u1 d2 u2 now user => ?_, fun pre post d u now user => ?_⟩
  · rw [applyChangesRun_fst, applyChangesRun_fst]
  · simp [applyChangesRun]

/-- C1 (code bug): submitting org A, program X, products [P1, P2] with
measure 10 where P1 already exists and P2 does not. The handler reports
the duplicate P1 and resets the form, but `reset_form` reruns the
script, so the save block never executes: no insert of P2 is issued and
no saved outcome occurs. -/
theorem submit_mixed_batch_inserts_nothing :
    handle_form_submission ⟨"A", "X", ["P1", "P2"], 10, true⟩
      (fun q => if q.2.2 = "P1" then Except.ok [1] else Except.ok [0])
      (fun _ => Except.ok ()) 7 "TEST_USER" =
      { calls := [.existsCheck "A" "X" "P1", .existsCheck "A" "X" "P2"],
        messages := [.error (dupMessage ["P1"])],
        formReset := true, halted := true } := by
  decide

/-- C10: an errored existence check is reported as no existing entry, so
a submission whose checks all fail with store errors treats every
product as new and inserts them all in the bulk write. -/
theorem check_error_treated_as_new :
    (∀ c p pr e (env : String × String × String → Except String (List Nat)),
        env (c, p, pr) = Except.error e → check_existing_entry c p pr env = false) ∧
    (∀ (s : SessionState) (checkEnv : String × String × String → Except String (List Nat))
        (saveEnv : List Record → Except String Unit) (now : Nat) (user : String),
        validState s →
        (∀ p ∈ s.selected_products,
          ∃ e, checkEnv (s.selected_company, s.selected_program, p) = Except.error e) →
        saveEnv (s.selected_products.map (fun p => entryOf s p now user)) = Except.ok () →
        handle_form_submission s checkEnv saveEnv now user =
          { calls := productChecks s ++
              [.insertBatch (s.selected_products.map (fun p => entryOf s p now user))],
            messages := [.success "Data successfully saved."],
            formReset := true, halted := true }) := by
  constructor
  · intro c p pr e env he
    unfold check_existing_entry
    rw [he]
  · intro s checkEnv saveEnv now user hv hall hsave
    have hfalse : ∀ p ∈ s.selected_products,
        check_existing_entry s.selected_company s.selected_program p checkEnv = false := by
      intro p hp
      obtain ⟨e, he⟩ := hall p hp
      unfold check_existing_entry
      rw [he]
    have hdup : s.selected_products.filter
        (fun p => check_existing_entry s.selected_company s.selected_program p checkEnv) = [] :=
      List.filter_eq_nil_iff.mpr (fun p hp => by simp [hfalse p hp])
    have hnew : s.selected_products.filter
        (fun p => !check_existing_entry s.selected_company s.selected_program p checkEnv) =
        s.selected_products :=
      List.filter_eq_self.mpr (fun p hp => by simp [hfalse p hp])
    obtain ⟨h1, h2, h3, h4⟩ := hv
    unfold handle_form_submission
    rw [if_neg (by push_neg; exact ⟨h1, h2, h3, h4⟩)]
    simp only [hdup, hnew]
    rw [if_neg (by simp)]
    rw [if_pos (by simp [List.map_eq_nil_iff, h3])]
    unfold save_commission_data
    rw [hsave]

/-- Witness for C10: a two-product submission whose checks both error is
inserted wholesale. -/
theorem check_error_treated_as_new_witness :
    validState ⟨"A", "X", ["P1", "P2"], 10, true⟩ ∧
    handle_form_submission ⟨"A", "X", ["P1", "P2"], 10, true⟩
      (fun _ => Except.error "connection lost") (fun _ => Except.ok ()) 7 "TEST_USER" =
      { calls := productChecks ⟨"A", "X", ["P1", "P2"], 10, true⟩ ++
          [.insertBatch ((["P1", "P2"] : List String).map
            (fun p => entryOf ⟨"A", "X", ["P1", "P2"], 10, true⟩ p 7 "TEST_USER"))],
        messages := [.success "Data successfully saved."],
        formReset := true, halted := true } :=
  ⟨by decide,
   check_error_treated_as_new.2 ⟨"A", "X", ["P1", "P2"], 10, true⟩
     (fun _ => Except.error "connection lost") (fun _ => Except.ok ()) 7 "TEST_USER"
     (by decide) (fun p _ => ⟨"connection lost", rfl⟩) rfl⟩

/-! ## Reconciliation counting lemmas -/

theorem countP_eq_one_of_mem_unique {α : Type} (p : α → Bool) :
    ∀ (l : List α), l.Nodup → ∀ a, a ∈ l → p a = true →
      (∀ b, b ∈ l → p b = true → b = a) → l.countP p = 1 := by
  intro l
  induction l with
  | nil => intro _ a ha; cases ha
  | cons x t ih =>
    intro hnd a ha hpa huniq
    rw [List.countP_cons]
    have hnd2 := List.nodup_cons.mp hnd
    rcases List.mem_cons.mp ha with rfl | hat
    · have ht0 : t.countP p = 0 := by
        rw [List.countP_eq_zero]
        intro b hb hpb
        have hbx := huniq b (List.mem_cons_of_mem _ hb) hpb
        subst hbx
        exact hnd2.1 hb
      simp [ht0, hpa]
    · have hpx : p x = false := by
        cases hx : p x with
        | false => rfl
        | true =>
          have := huniq x (List.mem_cons_self x t) hx
          subst this
          exact absurd hat hnd2.1
      have ht1 : t.countP p = 1 :=
        ih hnd2.2 a hat hpa
          (fun b hb hpb => huniq b (List.mem_cons_of_mem _ hb) hpb)
      simp [ht1, hpx]

theorem count_map_eq_countP {α β : Type} [DecidableEq β] (f : α → β) (c : β) :
    ∀ l : List α, (l.map f).count c = l.countP (fun x => decide (f x = c)) := by
  intro l
  induction l with
  | nil => rfl
  | cons x t ih =>
    simp only [List.map_cons, List.count_cons, List.countP_cons, ih, beq_iff_eq,
      decide_eq_true_eq]

theorem mem_deletedIndexes {pre : List Record} {post : List (Nat × Record)} {i : Nat} :
    i ∈ deletedIndexes pre post ↔ i < pre.length ∧ i ∉ post.map Prod.fst := by
  simp [deletedIndexes, List.mem_filter, List.mem_range, List.elem_iff]

theorem nodup_deletedIndexes (pre : List Record) (post : List (Nat × Record)) :
    (deletedIndexes pre post).Nodup :=
  (List.nodup_range pre.length).filter _

theorem getElem?_some_getD {l : List Record} {i : Nat} (hi : i < l.length) :
    l[i]? = some (l.getD i default) := by
  rw [List.getElem?_eq_getElem hi, List.getD_eq_getElem l default hi]

theorem key_inj {pre : List Record} (hkeys : (pre.map naturalKey).Nodup)
    {i j : Nat} (hi : i < pre.length) (hj : j < pre.length)
    (h : naturalKey (pre.getD i default) = naturalKey (pre.getD j default)) : i = j := by
  have hi2 : i < (pre.map naturalKey).length := by simpa using hi
  have hj2 : j < (pre.map naturalKey).length := by simpa using hj
  have h2 : (pre.map naturalKey)[i] = (pre.map naturalKey)[j] := by
    rw [List.getElem_map, List.getElem_map]
    rw [List.getD_eq_getElem pre default hi, List.getD_eq_getElem pre default hj] at h
    exact h
  exact (List.Nodup.getElem_inj_iff hkeys).mp h2

theorem fst_nodup_inj {l : List (Nat × Record)} (h : (l.map Prod.fst).Nodup)
    {i : Nat} {r r2 : Record} (h1 : (i, r) ∈ l) (h2 : (i, r2) ∈ l) : r = r2 := by
  induction l with
  | nil => cases h1
  | cons x t ih =>
    rw [List.map_cons, List.nodup_cons] at h
    rcases List.mem_cons.mp h1 with rfl | h1t
    · rcases List.mem_cons.mp h2 with heq | h2t
      · exact (Prod.mk.inj heq).2.symm
      · exact absurd (List.mem_map_of_mem Prod.fst h2t) h.1
    · rcases List.mem_cons.mp h2 with heq | h2t
      · rw [← heq] at h
        exact absurd (List.mem_map_of_mem Prod.fst h1t) h.1
      · exact ih h.2 h1t h2t

theorem changedRows_subset {pre : List Record} {post : List (Nat × Record)} {q : Nat × Record}
    (h : q ∈ changedRows pre post) : q ∈ post :=
  List.mem_of_mem_filter h

theorem mem_changedRows_of {pre : List Record} {post : List (Nat × Record)}
    {i : Nat} {r : Record} (hi : i < pre.length) (hmem : (i, r) ∈ post)
    (hne : r ≠ pre.getD i default) : (i, r) ∈ changedRows pre post := by
  apply List.mem_filter.mpr
  refine ⟨hmem, ?_⟩
  simp only [getElem?_some_getD hi]
  exact decide_eq_true hne

theorem changedRows_ne {pre : List Record} {post : List (Nat × Record)}
    {i : Nat} {r : Record} (hi : i < pre.length)
    (h : (i, r) ∈ changedRows pre post) : r ≠ pre.getD i default := by
  have h2 := (List.mem_filter.mp h).2
  simp only [getElem?_some_getD hi] at h2
  exact of_decide_eq_true h2

theorem editableMatch_key {r r0 : Record} (h : editableMatch r r0) :
    naturalKey r = naturalKey r0 := by
  obtain ⟨h1, h2, h3, -, -⟩ := h
  simp [naturalKey, h1, h2, h3]

theorem mem_applyCalls {pre : List Record} {post : List (Nat × Record)}
    {now : Nat} {user : String} {c : StoreCall} :
    c ∈ applyCalls pre post now user ↔
      (∃ j ∈ deletedIndexes pre post, deleteCallOf (pre.getD j default) = c) ∨
      (∃ q ∈ changedRows pre post, updateCallOf q.2 now user = c) := by
  simp [applyCalls, List.mem_append, List.mem_map]

theorem delete_ne_update (r r2 : Record) (now : Nat) (user : String) :
    deleteCallOf r ≠ updateCallOf r2 now user := by
  simp [deleteCallOf, updateCallOf]

theorem deleteCallOf_inj {r r2 : Record} (h : deleteCallOf r = deleteCallOf r2) :
    naturalKey r = naturalKey r2 := by
  simp only [deleteCallOf, StoreCall.deleteByKey.injEq] at h
  simp [naturalKey, h.1, h.2.1, h.2.2]

theorem updateCallOf_key {r r2 : Record} {now : Nat} {user : String}
    (h : updateCallOf r now user = updateCallOf r2 now user) :
    naturalKey r = naturalKey r2 := by
  simp only [updateCallOf, StoreCall.updateByKey.injEq] at h
  simp [naturalKey, h.1, h.2.1, h.2.2.1]

/-- C2: over any pre-edit snapshot with pairwise distinct natural keys
and any post-edit table produced by the edit surface (surviving original
positions, no duplicate position, non-editable columns preserved),
applying changes issues exactly one delete-by-key call for the key at
each position absent from the post-edit table and no update for that
key, exactly one update-by-key call (carrying the new measure and active
flag) for the key at each surviving changed position and no delete for
that key, and no call at all for the key of a position that survives
unchanged. -/
theorem reconcile_calls_exact
    (pre : List Record) (post : List (Nat × Record)) (now : Nat) (user : String)
    (hkeys : (pre.map naturalKey).Nodup)
    (hfst : (post.map Prod.fst).Nodup)
    (hvalid : ∀ q ∈ post, q.1 < pre.length ∧ editableMatch q.2 (pre.getD q.1 default))
    (i : Nat) (hi : i < pre.length) :
    (i ∉ post.map Prod.fst →
      (applyCalls pre post now user).count (deleteCallOf (pre.getD i default)) = 1 ∧
      ∀ r2, updateCallOf r2 now user ∈ applyCalls pre post now user →
        naturalKey r2 ≠ naturalKey (pre.getD i default)) ∧
    (∀ r, (i, r) ∈ post → r ≠ pre.getD i default →
      (applyCalls pre post now user).count (updateCallOf r now user) = 1 ∧
      ∀ r2, deleteCallOf r2 ∈ applyCalls pre post now user →
        naturalKey r2 ≠ naturalKey (pre.getD i default)) ∧
    (∀ r, (i, r) ∈ post → r = pre.getD i default →
      ∀ c ∈ applyCalls pre post now user,
        callKeyOf c ≠ some (naturalKey (pre.getD i default))) := by
  have hchnd : (changedRows pre post).Nodup := (hfst.of_map Prod.fst).filter _
  refine ⟨fun hnotin => ⟨?_, ?_⟩, fun r hrpost hrne => ⟨?_, ?_⟩, fun r hrpost hreq => ?_⟩
  · -- deleted position: exactly one delete call for its key
    unfold applyCalls
    rw [List.count_append, count_map_eq_countP, count_map_eq_countP]
    have h1 : (deletedIndexes pre post).countP
        (fun j => decide (deleteCallOf (pre.getD j default) =
          deleteCallOf (pre.getD i default))) = 1 := by
      apply countP_eq_one_of_mem_unique _ _ (nodup_deletedIndexes pre post) i
        (mem_deletedIndexes.mpr ⟨hi, hnotin⟩) (by simp)
      intro j hj hpj
      have hj2 := mem_deletedIndexes.mp hj
      exact key_inj hkeys hj2.1 hi (deleteCallOf_inj (of_decide_eq_true hpj))
    have h2 : (changedRows pre post).countP
        (fun q => decide (updateCallOf q.2 now user =
          deleteCallOf (pre.getD i default))) = 0 := by
      rw [List.countP_eq_zero]
      intro q hq
      simp [updateCallOf, deleteCallOf]
    rw [h1, h2]
  · -- deleted position: no update call for its key
    intro r2 hmem hkeyeq
    rcases mem_applyCalls.mp hmem with ⟨j, hj, hEq⟩ | ⟨q, hq, hEq⟩
    · exact delete_ne_update _ _ _ _ hEq
    · have hk := updateCallOf_key hEq
      have hqpost := changedRows_subset hq
      have hv := hvalid q hqpost
      have hkq := editableMatch_key hv.2
      have hqi : q.1 = i := key_inj hkeys hv.1 hi (by rw [← hkq, hk, hkeyeq])
      apply hnotin
      rw [← hqi]
      exact List.mem_map_of_mem Prod.fst hqpost
  · -- changed surviving position: exactly one update call
    unfold applyCalls
    rw [List.count_append, count_map_eq_countP, count_map_eq_countP]
    have h1 : (deletedIndexes pre post).countP
        (fun j => decide (deleteCallOf (pre.getD j default) =
          updateCallOf r now user)) = 0 := by
      rw [List.countP_eq_zero]
      intro j hj
      simp [updateCallOf, deleteCallOf]
    have h2 : (changedRows pre post).countP
        (fun q => decide (updateCallOf q.2 now user =
          updateCallOf r now user)) = 1 := by
      apply countP_eq_one_of_mem_unique _ _ hchnd (i, r)
        (mem_changedRows_of hi hrpost hrne) (by simp)
      intro b hb hpb
      obtain ⟨j, r2⟩ := b
      have hEq := of_decide_eq_true hpb
      have hk : naturalKey r2 = naturalKey r := updateCallOf_key hEq
      have hbpost := changedRows_subset hb
      have hv := hvalid (j, r2) hbpost
      have hvr := hvalid (i, r) hrpost
      have hji : j = i := by
        apply key_inj hkeys hv.1 hi
        rw [← editableMatch_key hv.2, hk, editableMatch_key hvr.2]
      subst hji
      have : r2 = r := fst_nodup_inj hfst hbpost hrpost
      rw [this]
    rw [h1, h2]
  · -- changed surviving position: no delete call for its key
    intro r2 hmem hkeyeq
    rcases mem_applyCalls.mp hmem with ⟨j, hj, hEq⟩ | ⟨q, hq, hEq⟩
    · have hj2 := mem_deletedIndexes.mp hj
      have hk := deleteCallOf_inj hEq
      have hji : j = i := key_inj hkeys hj2.1 hi (by rw [hk, hkeyeq])
      subst hji
      exact hj2.2 (List.mem_map_of_mem Prod.fst hrpost)
    · exact delete_ne_update _ _ _ _ hEq.symm
  · -- unchanged surviving position: no call for its key
    intro c hc
    rcases mem_applyCalls.mp hc with ⟨j, hj, hEq⟩ | ⟨q, hq, hEq⟩
    · subst hEq
      intro hkeyc
      have hck : callKeyOf (deleteCallOf (pre.getD j default)) =
          some (naturalKey (pre.getD j default)) := rfl
      rw [hck] at hkeyc
      have hj2 := mem_deletedIndexes.mp hj
      have hji : j = i := key_inj hkeys hj2.1 hi (Option.some.inj hkeyc)
      subst hji
      exact hj2.2 (List.mem_map_of_mem Prod.fst hrpost)
    · subst hEq
      intro hkeyc
      have hck : callKeyOf (updateCallOf q.2 now user) =
          some (naturalKey q.2) := rfl
      rw [hck] at hkeyc
      have hqpost := changedRows_subset hq
      have hv := hvalid q hqpost
      have hqi : q.1 = i := by
        apply key_inj hkeys hv.1 hi
        rw [← editableMatch_key hv.2]
        exact Option.some.inj hkeyc
      have hqpair : (i, q.2) ∈ post := by
        rw [← hqi]
        exact hqpost
      have hq2r : q.2 = r := fst_nodup_inj hfst hqpair hrpost
      have hne := changedRows_ne (by rw [hqi]; exact hi) hq
      rw [hqi, hq2r] at hne
      exact hne hreq

/-- Witness for C2 at the spec's example: a five-row snapshot with
positions 1 and 3 deleted and position 2's measure changed to 99 gets
exactly one delete per deleted key, exactly one update for the changed
key, and the deletes never target the untouched key at position 0. -/
theorem reconcile_calls_exact_witness :
    (applyCalls pre5 post5 0 "u").count (deleteCallOf (pre5.getD 1 default)) = 1 ∧
    (applyCalls pre5 post5 0 "u").count (deleteCallOf (pre5.getD 3 default)) = 1 ∧
    (applyCalls pre5 post5 0 "u").count (updateCallOf (mkSample "p2" 99 12) 0 "u") = 1 ∧
    callKeyOf (deleteCallOf (pre5.getD 1 default)) ≠
      some (naturalKey (pre5.getD 0 default)) :=
  ⟨((reconcile_calls_exact pre5 post5 0 "u" (by decide) (by decide) (by decide) 1
      (by decide)).1 (by decide)).1,
   ((reconcile_calls_exact pre5 post5 0 "u" (by decide) (by decide) (by decide) 3
      (by decide)).1 (by decide)).1,
   ((reconcile_calls_exact pre5 post5 0 "u" (by decide) (by decide) (by decide) 2
      (by decide)).2.1 (mkSample "p2" 99 12) (by decide) (by decide)).1,
   (reconcile_calls_exact pre5 post5 0 "u" (by decide) (by decide) (by decide) 0
      (by decide)).2.2 (mkSample "p0" 1 10) (by decide) (by decide)
      (deleteCallOf (pre5.getD 1 default)) (by decide)⟩
